import Mathlib

/-!
Shallow embedding of the Syslog_Analyzer ingestion-and-delivery core
(`syslog-analyzer`, Go).  Each Go function named in a theorem below is
translated into an executable Lean definition; machine integers are
modelled as `Int`/`Nat` (no counter in this code path can overflow in the
scenarios considered), Go channels as bounded lists, and wall-clock time
as integer seconds.
-/

namespace SyslogAnalyzer

/-! ## Listener routing (src/syslog/listener.go)

`SharedListener.routeMessage` looks the peer IP up in the `sources` map
(a map from IP string to registered source), delivers to the exact match
when it exists and `IsRunning()` holds, otherwise to the `"0.0.0.0"`
wildcard registrant when it exists and is running, otherwise drops the
message.  We model a registered source by its identifier together with
the value its `IsRunning()` method returns, and the map as an
association list (at most one entry per key, as in a Go map). -/

structure RegSource where
  id : Nat
  running : Bool
deriving DecidableEq, Repr

/-- Wildcard fallback of `routeMessage`: the second `if` statement of the
Go function, reached when the exact-IP lookup did not deliver. -/
def routeWildcard (sources : List (String × RegSource)) : Option RegSource :=
  match sources.lookup "0.0.0.0" with
  | some w => if w.running then some w else none
  | none => none

/-- Embedding of `SharedListener.routeMessage` (listener.go:178-193).
Returns the unique source the message is delivered to, or `none` when the
message is silently dropped. -/
def routeMessage (sources : List (String × RegSource)) (sourceIP : String) :
    Option RegSource :=
  match sources.lookup sourceIP with
  | some s => if s.running then some s else routeWildcard sources
  | none => routeWildcard sources

/-- The delivery target that claim C2, read literally, predicts: the
exact-IP registrant whenever one exists, else the wildcard registrant
whenever one exists, else a drop.  (Stated from the claim text, to be
compared with `routeMessage`.) -/
def claimedRouteC2 (sources : List (String × RegSource)) (sourceIP : String) :
    Option RegSource :=
  match sources.lookup sourceIP with
  | some s => some s
  | none =>
    match sources.lookup "0.0.0.0" with
    | some w => some w
    | none => none

/-! ## SyslogSource ingestion (src/unnamed/part_007)

`processMessage` updates `lastMessageTime`, atomically increments
`eventCount` and `dataSize`, and then — unless `SimulationMode` is set —
performs the *blocking* channel send `s.queue <- data` on the ingestion
channel created with `make(chan []byte, 10000)` and increments
`processedCount`.  A blocking send on a buffered Go channel appends the
value when fewer than `cap` elements are buffered, and otherwise suspends
the caller until space is available.  We model one call by a function
returning `none` when the call blocks (the suspended state), and `some`
of the updated source state otherwise. -/

def ingestQueueCap : Nat := 10000

structure SourceState where
  eventCount : Int
  dataSize : Int
  processedCount : Int
  queue : List (List Nat)
  lastMessageTime : Int
deriving DecidableEq, Repr

/-- Result of the buffered-channel send `ch <- v` on a channel of
capacity `cap`: the new buffer contents, or `none` when the send blocks
because the buffer is full. -/
def chanSend (cap : Nat) (q : List (List Nat)) (v : List Nat) :
    Option (List (List Nat)) :=
  if q.length < cap then some (q ++ [v]) else none

/-- Embedding of `SyslogSource.processMessage` (part_007:126-142) for one
message `data` arriving at time `now`.  `none` means the call is blocked
on the channel send and has not returned. -/
def processMessage (simulationMode : Bool) (st : SourceState)
    (data : List Nat) (now : Int) : Option SourceState :=
  let st1 : SourceState :=
    { st with
      lastMessageTime := now
      eventCount := st.eventCount + 1
      dataSize := st.dataSize + (data.length : Int) }
  if simulationMode then
    some st1
  else
    match chanSend ingestQueueCap st1.queue data with
    | some q => some { st1 with queue := q, processedCount := st1.processedCount + 1 }
    | none => none

/-- Behaviour that claim C1, read literally, predicts for a full queue: the
message is dropped (queue unchanged) and counted as lost.  Stated from the
claim text, to be compared with `processMessage`. -/
def claimedFullQueueDrop (simulationMode : Bool) (st : SourceState)
    (data : List Nat) (now : Int) : Prop :=
  simulationMode = false → st.queue.length = ingestQueueCap →
    ∃ st2, processMessage simulationMode st data now = some st2 ∧
      st2.queue = st.queue

/-! ## Whole-pipeline step model for one source (src/unnamed/part_007)

For claim C7 we model the visible state of one source process: the
source's ingestion channel, the worker's accumulating batch
(`startWorker`), the per-destination channels of capacity 10,000 and the
per-destination accumulating batches (`startDestinationWorker`), and the
list of batches actually handed to a destination sink
(`processDestinationBatch` reaching `WriteBatchToStorage` /
`PostBatchToHEC`).  `encode` abstracts the `json.Marshal` of the wrapped
event produced in `processBatch`; its exact output is irrelevant to the
claims proved about this model.  Each constructor of `SysEv` is one
scheduler-visible step of one of the goroutines. -/

def workerBatchSize : Nat := 1000

structure SysState where
  src : SourceState
  workerBatch : List (List Nat)
  destQueues : List (String × List (List Nat))
  destBatches : List (String × List (List Nat))
  sinkOut : List (String × List (List Nat))
deriving DecidableEq, Repr

inductive SysEv where
  | msg (data : List Nat) (now : Int)
  | workerRecv
  | workerTimeout
  | destRecv (destID : String)
  | destTimeout (destID : String)
deriving DecidableEq, Repr

/-- Push one encoded event onto one destination channel with the
`select`/`default` drop of `processBatch` (part_007:333-339): append when
fewer than 10,000 events are buffered, otherwise drop it. -/
def destPush (q : List (List Nat)) (v : List Nat) : List (List Nat) :=
  if q.length < ingestQueueCap then q ++ [v] else q

/-- Distribution step of `SyslogSource.processBatch` (part_007:297-343):
every destination queue receives the encoded form of every event of the
batch, dropping on overflow. -/
def distributeBatch (encode : List Nat → List Nat) (batch : List (List Nat))
    (queues : List (String × List (List Nat))) :
    List (String × List (List Nat)) :=
  queues.map (fun dq => (dq.1, batch.foldl (fun q ev => destPush q (encode ev)) dq.2))

/-- Update the entry of `destID` in an association list with `f`. -/
def updateAssoc (l : List (String × List (List Nat))) (destID : String)
    (f : List (List Nat) → List (List Nat)) : List (String × List (List Nat)) :=
  l.map (fun p => if p.1 = destID then (p.1, f p.2) else p)

/-- One scheduler step of the source pipeline of part_007.  In simulation
mode the main worker body is `time.Sleep(1 * time.Second); continue`
(part_007:237-240), so `workerRecv`/`workerTimeout` leave the state
unchanged; a `msg` step is `processMessage`; destination workers receive
from their channel or flush their batch to the sink on the 2-second
timeout. -/
def sysStep (sim : Bool) (encode : List Nat → List Nat) (st : SysState) :
    SysEv → SysState
  | .msg data now =>
    match processMessage sim st.src data now with
    | some src2 => { st with src := src2 }
    | none => st
  | .workerRecv =>
    if sim then st
    else
      match st.src.queue with
      | [] => st
      | d :: rest =>
        let batch2 := st.workerBatch ++ [d]
        let src2 : SourceState := { st.src with queue := rest }
        if workerBatchSize ≤ batch2.length then
          { st with
            src := src2
            workerBatch := []
            destQueues := distributeBatch encode batch2 st.destQueues }
        else
          { st with
            src := src2
            workerBatch := batch2 }
  | .workerTimeout =>
    if sim then st
    else if st.workerBatch = [] then st
    else
      { st with
        workerBatch := []
        destQueues := distributeBatch encode st.workerBatch st.destQueues }
  | .destRecv destID =>
    match st.destQueues.lookup destID with
    | none => st
    | some [] => st
    | some (d :: rest) =>
      let batch2 := (st.destBatches.lookup destID).getD [] ++ [d]
      if workerBatchSize ≤ batch2.length then
        { st with
          destQueues := updateAssoc st.destQueues destID (fun _ => rest)
          destBatches := updateAssoc st.destBatches destID (fun _ => [])
          sinkOut := st.sinkOut ++ [(destID, batch2)] }
      else
        { st with
          destQueues := updateAssoc st.destQueues destID (fun _ => rest)
          destBatches := updateAssoc st.destBatches destID (fun _ => batch2) }
  | .destTimeout destID =>
    match st.destBatches.lookup destID with
    | none => st
    | some [] => st
    | some batch =>
      { st with
        destBatches := updateAssoc st.destBatches destID (fun _ => [])
        sinkOut := st.sinkOut ++ [(destID, batch)] }

/-- Run a sequence of scheduler steps. -/
def sysRun (sim : Bool) (encode : List Nat → List Nat) (st : SysState)
    (evs : List SysEv) : SysState :=
  evs.foldl (sysStep sim encode) st

/-- Number of inbound messages in a schedule. -/
def countMsgs : List SysEv → Nat
  | [] => 0
  | .msg _ _ :: evs => countMsgs evs + 1
  | _ :: evs => countMsgs evs

/-- Quiescent pipeline: nothing buffered anywhere beyond the ingestion
counters, and nothing ever handed to a sink. -/
def Quiescent (st : SysState) : Prop :=
  st.src.queue = [] ∧ st.workerBatch = [] ∧
  (∀ p ∈ st.destQueues, p.2 = []) ∧
  (∀ p ∈ st.destBatches, p.2 = []) ∧
  st.sinkOut = []

/-! ## HEC delivery (src/destinations/destinations.go, PostBatchToHEC 278-304)

`PostBatchToHEC` returns `nil` immediately when the URL or API key is
empty; otherwise it loops forever: POST the payload, return `nil` when
the response arrives with status 200 or 202, and otherwise (transport
error or any other status) sleep two seconds and try again.  We abstract
one network interaction (request construction succeeded, `client.Do` plus
status inspection) as an `AttemptOutcome` drawn from an ambient schedule
`outcomes : Nat → AttemptOutcome`, and observe the unbounded loop
through `fuel` iterations: `none` means the loop is still retrying — the
batch has not been dropped and no error has been returned. -/

inductive AttemptOutcome where
  | netError
  | status (code : Nat)
deriving DecidableEq, Repr

/-- The success test of the loop body: `err == nil && (resp.StatusCode ==
200 || resp.StatusCode == 202)`. -/
def attemptSucceeds : AttemptOutcome → Bool
  | .netError => false
  | .status c => c == 200 || c == 202

structure HECConfig where
  URL : String
  APIKey : String
deriving DecidableEq, Repr

inductive HECResult where
  | skipped
  | deliveredAt (attempt : Nat) (elapsedSeconds : Nat)
deriving DecidableEq, Repr

/-- The retry loop of `PostBatchToHEC`, started at attempt index `i`
after `elapsed` seconds of accumulated retry delay; every failed attempt
is followed by `time.Sleep(2 * time.Second)` and the next attempt. -/
def hecRetryLoop (outcomes : Nat → AttemptOutcome) :
    Nat → Nat → Nat → Option (Nat × Nat)
  | 0, _, _ => none
  | fuel + 1, i, elapsed =>
    if attemptSucceeds (outcomes i) then some (i, elapsed)
    else hecRetryLoop outcomes fuel (i + 1) (elapsed + 2)

/-- Embedding of `PostBatchToHEC`: the guard on empty URL/key, then the
indefinite retry loop. -/
def PostBatchToHEC (cfg : HECConfig) (outcomes : Nat → AttemptOutcome)
    (fuel : Nat) : Option HECResult :=
  if cfg.URL = "" || cfg.APIKey = "" then some .skipped
  else (hecRetryLoop outcomes fuel 0 0).map (fun p => .deliveredAt p.1 p.2)

/-- The scenario of the spec: HTTP 500 on the first two attempts, then
HTTP 200. -/
def hecScenario : Nat → AttemptOutcome :=
  fun n => if n ≤ 1 then .status 500 else .status 200

/-! ## Storage rotation (src/unnamed/part_002, StorageHandler)

`StorageHandler.ProcessBatch` returns early on an empty batch, rotates
(closing the current file and resetting the count) when `shouldRotate`
holds — `eventCount >= maxEvents` with `maxEvents` defaulting to 50,000
when the configured value is zero — opens a fresh timestamp-named file
when none is open, and then writes every event of the batch to the
current file, incrementing `eventCount` per event.  We track the open
file by its event count and record each closed file by the number of
events it contained when closed. -/

structure StorageHandler where
  hasFile : Bool
  eventCount : Nat
  closedCounts : List Nat
  maxEventsPerFile : Nat
deriving DecidableEq, Repr

def effectiveMaxEvents (m : Nat) : Nat := if m = 0 then 50000 else m

/-- Embedding of `StorageHandler.shouldRotate` (part_002:72-79). -/
def StorageHandler.shouldRotate (s : StorageHandler) : Bool :=
  effectiveMaxEvents s.maxEventsPerFile ≤ s.eventCount

/-- Embedding of `StorageHandler.rotateFile` (part_002:82-90): close the
current file when one is open and reset the count. -/
def StorageHandler.rotateFile (s : StorageHandler) : StorageHandler :=
  { s with
    hasFile := false
    eventCount := 0
    closedCounts :=
      if s.hasFile then s.closedCounts ++ [s.eventCount] else s.closedCounts }

/-- Embedding of `StorageHandler.openNewFile` (part_002:93-115). -/
def StorageHandler.openNewFile (s : StorageHandler) : StorageHandler :=
  { s with
    hasFile := true
    eventCount := 0 }

/-- Embedding of `StorageHandler.ProcessBatch` (part_002:31-69) for a
batch of `batchLen` events. -/
def StorageHandler.ProcessBatch (s : StorageHandler) (batchLen : Nat) :
    StorageHandler :=
  if batchLen = 0 then s
  else
    let s1 := if s.shouldRotate then s.rotateFile else s
    let s2 := if s1.hasFile then s1 else s1.openNewFile
    { s2 with eventCount := s2.eventCount + batchLen }

def newStorageHandler (m : Nat) : StorageHandler := ⟨false, 0, [], m⟩

def runBatches (s : StorageHandler) (batches : List Nat) : StorageHandler :=
  batches.foldl StorageHandler.ProcessBatch s

/-- The property claim C4 states: every closed file holds exactly the
configured maximum.  (Stated from the claim text, to be compared with
the behaviour of `StorageHandler.ProcessBatch`.) -/
def claimedExactRotation (s : StorageHandler) : Prop :=
  ∀ c ∈ s.closedCounts, c = effectiveMaxEvents s.maxEventsPerFile

/-! ## Metrics ring buffer (src/syslog/metrics.go 10-70, src/unnamed/part_005 131-194)

Both copies of `CircularBuffer` implement the same structure: a
fixed-size slice, a `head` write index, and a saturating `count`.
Timestamps are integer seconds; `time.Time.After` is strict `<` on the
underlying instant.  `GetAverage` walks the `count` valid slots newest
first at index `(head - 1 - i + size) % size` — computed in Go `int`
arithmetic where the operand is non-negative because `i < count <= size`
and `head < size`, so it equals the natural number
`(head + size - 1 - i) % size` used here.  The Go `float64` average of
gigabytes is modelled exactly over `ℚ`; `int64` division of the
non-negative totals by `validPoints` is `Int.div` (truncation toward
zero, as in Go). -/

structure MetricDataPoint where
  Timestamp : Int
  LogCount : Int
  DataSize : Int
deriving DecidableEq, Repr, Inhabited

structure CircularBuffer where
  buffer : List MetricDataPoint
  size : Nat
  head : Nat
  count : Nat
deriving DecidableEq, Repr

/-- Embedding of `NewCircularBuffer`: a zeroed slice of `size` slots. -/
def NewCircularBuffer (size : Nat) : CircularBuffer :=
  ⟨List.replicate size default, size, 0, 0⟩

/-- Embedding of `CircularBuffer.Add` (metrics.go:28-37): write at
`head`, advance `head` modulo `size`, saturate `count` at `size`. -/
def CircularBuffer.Add (cb : CircularBuffer) (p : MetricDataPoint) :
    CircularBuffer :=
  { cb with
    buffer := cb.buffer.set cb.head p
    head := (cb.head + 1) % cb.size
    count := if cb.count < cb.size then cb.count + 1 else cb.count }

def CircularBuffer.addAll (cb : CircularBuffer) (ps : List MetricDataPoint) :
    CircularBuffer :=
  ps.foldl CircularBuffer.Add cb

/-- The slot read at loop iteration `i` of `GetAverage`:
`(head - 1 - i + size) % size` in non-negative Go `int` arithmetic. -/
def CircularBuffer.slotIndex (cb : CircularBuffer) (i : Nat) : Nat :=
  (cb.head + cb.size - 1 - i) % cb.size

/-- The stored samples exactly as the `GetAverage` loop visits them,
newest first. -/
def CircularBuffer.storedSamples (cb : CircularBuffer) : List MetricDataPoint :=
  (List.range cb.count).filterMap (fun i => cb.buffer.get? (cb.slotIndex i))

/-- The samples the `GetAverage` loop accumulates: stored samples whose
`Timestamp.After(cutoff)` holds. -/
def CircularBuffer.qualifying (cb : CircularBuffer) (cutoff : Int) :
    List MetricDataPoint :=
  (List.range cb.count).filterMap (fun i =>
    match cb.buffer.get? (cb.slotIndex i) with
    | some p => if cutoff < p.Timestamp then some p else none
    | none => none)

/-- Aggregation applied to the qualifying samples: average log count by
truncated integer division, average gigabytes over `ℚ`. -/
def aggregateAverage (valid : List MetricDataPoint) : Int × ℚ :=
  if valid.length = 0 then (0, 0)
  else ((valid.map (fun p => p.LogCount)).sum / (valid.length : Int),
        (((valid.map (fun p => p.DataSize)).sum : ℚ) / ((1024 : ℚ) * 1024 * 1024)) /
          (valid.length : ℚ))

/-- Embedding of `CircularBuffer.GetAverage` (metrics.go:40-69) at query
instant `now` for a window of `window` seconds. -/
def CircularBuffer.GetAverage (cb : CircularBuffer) (now window : Int) :
    Int × ℚ :=
  if cb.count = 0 then (0, 0)
  else aggregateAverage (cb.qualifying (now - window))

/-! ## Filter engine (src/filtering/engine.go)

Payloads are either a raw string or a decoded JSON object; we model the
JSON object as an association list whose values are strings or anything
else (`evaluateRule` only ever reads string-valued fields).  The event's
`time.Time.String()` rendering is carried as an opaque `timeStr`.
`strings.Contains`/`strings.ToLower`/`strings.EqualFold` are modelled on
the character lists of the strings; the `regexp` library is an external
collaborator and enters as an oracle `regexMatch pattern value`, `none`
standing for a compilation error (logged and treated as non-match). -/

inductive JsonVal where
  | s (v : String)
  | other
deriving DecidableEq, Repr

inductive Payload where
  | str (v : String)
  | obj (fields : List (String × JsonVal))
deriving DecidableEq, Repr

structure LogEvent where
  timeStr : String
  payload : Payload
  source : String
deriving DecidableEq, Repr

structure FilterRule where
  Field : String
  Operator : String
  Value : String
  Action : String
deriving DecidableEq, Repr

/-- Substring occurrence on character lists: `sub` occurs as a
contiguous run of `l`. -/
def containsSub (sub : List Char) : List Char → Bool
  | [] => sub.isEmpty
  | c :: rest => sub.isPrefixOf (c :: rest) || containsSub sub rest

/-- Embedding of `strings.Contains`. -/
def goContains (s sub : String) : Bool := containsSub sub.data s.data

/-- Embedding of `strings.ToLower` on the character list of a string
(ASCII case folding). -/
def goToLower (s : String) : String := ⟨s.data.map Char.toLower⟩

/-- Embedding of `strings.EqualFold` (ASCII case folding). -/
def goEqualFold (a b : String) : Bool := goToLower a == goToLower b

/-- Embedding of `Engine.extractFieldValue` (engine.go:83-112). -/
def extractFieldValue (ev : LogEvent) (field : String) : String :=
  if field = "message" then
    match ev.payload with
    | .str s => s
    | .obj fields =>
      match fields.lookup "message" with
      | some (.s v) => v
      | _ => ""
  else if field = "source" then ev.source
  else if field = "time" then ev.timeStr
  else
    match ev.payload with
    | .obj fields =>
      match fields.lookup field with
      | some (.s v) => v
      | _ => ""
    | .str _ => ""

/-- Embedding of `Engine.evaluateRule` (engine.go:58-80). -/
def evaluateRule (regexMatch : String → String → Option Bool)
    (ev : LogEvent) (rule : FilterRule) : Bool :=
  let fieldValue := extractFieldValue ev rule.Field
  if fieldValue = "" then false
  else if rule.Operator = "contains" then
    goContains (goToLower fieldValue) (goToLower rule.Value)
  else if rule.Operator = "equals" then goEqualFold fieldValue rule.Value
  else if rule.Operator = "regex" then (regexMatch rule.Value fieldValue).getD false
  else false

/-- Embedding of `Engine.shouldInclude` (engine.go:42-55). -/
def shouldInclude (regexMatch : String → String → Option Bool)
    (rules : List FilterRule) (ev : LogEvent) : Bool :=
  match rules with
  | [] => true
  | rule :: rest =>
    if rule.Action = "exclude" && evaluateRule regexMatch ev rule then false
    else if rule.Action = "include" && !evaluateRule regexMatch ev rule then false
    else shouldInclude regexMatch rest ev

/-- Embedding of `Engine.ProcessBatch` (engine.go:25-39). -/
def filterProcessBatch (regexMatch : String → String → Option Bool)
    (rules : List FilterRule) (events : List LogEvent) : List LogEvent :=
  if rules.length = 0 then events
  else events.filter (shouldInclude regexMatch rules)

/-- A rule disqualifies an event when it is a matching `exclude` rule or
a non-matching `include` rule. -/
def disqualifies (regexMatch : String → String → Option Bool)
    (ev : LogEvent) (rule : FilterRule) : Prop :=
  (rule.Action = "exclude" ∧ evaluateRule regexMatch ev rule = true) ∨
  (rule.Action = "include" ∧ evaluateRule regexMatch ev rule = false)

def errorRule : FilterRule := ⟨"message", "contains", "ERROR", "include"⟩

def errEvent : LogEvent := ⟨"t1", .str "ERROR: disk full", "s1"⟩

def infoEvent : LogEvent := ⟨"t2", .str "INFO: ok", "s1"⟩

/-! ## Message parsing (src/syslog/processor.go, parseMessage 109-132)

`parseMessage` stamps the event with the receive time, the source name
and the payload size, then attempts `json.Unmarshal`; on success the
parsed value becomes the payload, on failure the input is trimmed of
whitespace and kept as a raw string — unless the trimmed string is
empty, in which case `parseMessage` returns `nil` and
`ProcessRawMessage` drops the message.  `json.Unmarshal` is the external
`encoding/json` decoder, abstracted as an oracle `jsonParse`; it fails
on every input with no JSON token, in particular on whitespace-only
input.  `strings.TrimSpace` is modelled by `goTrimSpace`, dropping
leading and trailing whitespace characters (identical behaviour on ASCII
whitespace). -/

/-- Embedding of `strings.TrimSpace` on the character list of a string. -/
def goTrimSpace (s : String) : String :=
  ⟨((s.data.dropWhile Char.isWhitespace).reverse.dropWhile
      Char.isWhitespace).reverse⟩

structure ParsedEvent (α : Type) where
  Time : Int
  Source : String
  Size : Int
  Event : α ⊕ String
deriving Repr

/-- Embedding of `LogProcessor.parseMessage`: `none` models the `nil`
return that makes `ProcessRawMessage` discard the message. -/
def parseMessage {α : Type} (jsonParse : String → Option α) (now : Int)
    (sourceName : String) (data : String) : Option (ParsedEvent α) :=
  match jsonParse data with
  | some j => some ⟨now, sourceName, (data.length : Int), Sum.inl j⟩
  | none =>
    let message := goTrimSpace data
    if message = "" then none
    else some ⟨now, sourceName, (data.length : Int), Sum.inr message⟩

/-- The property claim C9 states: a message whose JSON parse fails is
always degraded to a raw-string event, never discarded.  (Stated from
the claim text, to be compared with `parseMessage`.) -/
def claimedNeverDiscards : Prop :=
  ∀ (jsonParse : String → Option Unit) (now : Int) (sourceName data : String),
    jsonParse data = none →
      parseMessage jsonParse now sourceName data ≠ none

end SyslogAnalyzer

namespace SyslogAnalyzer

/-! ### Theorems for claims C2, C10 and part of C1 -/

/-- C2 counterexample: with a stopped source registered under the exact
peer IP `10.0.0.1` and a running wildcard source, the code delivers to
the wildcard source, while the claim predicts delivery to the exact-IP
registrant. -/
theorem routeMessage_not_claimedRouteC2 :
    routeMessage [("10.0.0.1", RegSource.mk 1 false),
                  ("0.0.0.0", RegSource.mk 2 true)] "10.0.0.1" =
      some (RegSource.mk 2 true) ∧
    claimedRouteC2 [("10.0.0.1", RegSource.mk 1 false),
                    ("0.0.0.0", RegSource.mk 2 true)] "10.0.0.1" =
      some (RegSource.mk 1 false) ∧
    routeMessage [("10.0.0.1", RegSource.mk 1 false),
                  ("0.0.0.0", RegSource.mk 2 true)] "10.0.0.1" ≠
    claimedRouteC2 [("10.0.0.1", RegSource.mk 1 false),
                    ("0.0.0.0", RegSource.mk 2 true)] "10.0.0.1" := by
  refine ⟨rfl, rfl, ?_⟩
  decide

/-- C2 amended: routing delivers to at most one source — the exact-IP
registrant when it exists and is running, otherwise the wildcard
registrant when it exists and is running, otherwise the message is
silently dropped (no error value exists in the return type at all). -/
theorem routeMessage_characterization
    (sources : List (String × RegSource)) (ip : String) :
    routeMessage sources ip =
      match sources.lookup ip with
      | some s =>
        if s.running then some s
        else
          match sources.lookup "0.0.0.0" with
          | some w => if w.running then some w else none
          | none => none
      | none =>
        match sources.lookup "0.0.0.0" with
        | some w => if w.running then some w else none
        | none => none := by
  unfold routeMessage routeWildcard
  rfl

/-- C10: any source that `routeMessage` delivers to has `running = true`
(a stopped source never receives a message); moreover when the exact-IP
registrant exists but is stopped, the result is exactly the wildcard
fallback — the running wildcard registrant if present, else a drop. -/
theorem routeMessage_only_running
    (sources : List (String × RegSource)) (ip : String) :
    (∀ s, routeMessage sources ip = some s → s.running = true) ∧
    (∀ s, sources.lookup ip = some s → s.running = false →
      routeMessage sources ip = routeWildcard sources ∧
      ∀ w, routeWildcard sources = some w → w.running = true) := by
  constructor
  · intro s hs
    unfold routeMessage routeWildcard at hs
    rcases h1 : sources.lookup ip with _ | s1 <;> rw [h1] at hs
    · rcases h2 : sources.lookup "0.0.0.0" with _ | w <;> rw [h2] at hs
      · exact absurd hs (by simp)
      · by_cases hw : w.running
        · simp [hw] at hs; rw [← hs]; exact hw
        · simp [hw] at hs
    · by_cases hr : s1.running
      · simp [hr] at hs; rw [← hs]; exact hr
      · simp [hr] at hs
        rcases h2 : sources.lookup "0.0.0.0" with _ | w <;> rw [h2] at hs
        · exact absurd hs (by simp)
        · by_cases hw : w.running
          · simp [hw] at hs; rw [← hs]; exact hw
          · simp [hw] at hs
  · intro s hs hstop
    constructor
    · unfold routeMessage
      rw [hs]
      simp [hstop]
    · intro w hw
      unfold routeWildcard at hw
      rcases h2 : sources.lookup "0.0.0.0" with _ | w2 <;> rw [h2] at hw
      · exact absurd hw (by simp)
      · by_cases hw2 : w2.running
        · simp [hw2] at hw; rw [← hw]; exact hw2
        · simp [hw2] at hw

/-- Witness for `routeMessage_only_running` at a concrete registry: a
stopped source under `10.0.0.5` with no wildcard present. -/
theorem routeMessage_only_running_witness :
    routeMessage [("10.0.0.5", RegSource.mk 7 false)] "10.0.0.5" =
      routeWildcard [("10.0.0.5", RegSource.mk 7 false)] ∧
    ∀ w, routeWildcard [("10.0.0.5", RegSource.mk 7 false)] = some w →
      w.running = true := by
  have h := (routeMessage_only_running
    [("10.0.0.5", RegSource.mk 7 false)] "10.0.0.5").2
    (RegSource.mk 7 false) (by decide) (by decide)
  exact h

/-- C1 counterexample: with the 10,000-capacity ingestion channel full, a
call to `processMessage` on a non-simulation source blocks (does not
return), rather than dropping the message and counting it as lost — the
drop-and-count behaviour the claim states does not occur. -/
theorem processMessage_full_queue_blocks :
    processMessage false
      (SourceState.mk 0 0 0 (List.replicate ingestQueueCap [0]) 0) [1] 5 = none ∧
    ¬ claimedFullQueueDrop false
      (SourceState.mk 0 0 0 (List.replicate ingestQueueCap [0]) 0) [1] 5 := by
  have hnone : processMessage false
      (SourceState.mk 0 0 0 (List.replicate ingestQueueCap [0]) 0) [1] 5 = none := by
    simp [processMessage, chanSend]
  refine ⟨hnone, ?_⟩
  intro h
  obtain ⟨st2, heq, -⟩ := h rfl (by simp)
  rw [hnone] at heq
  exact Option.noConfusion heq

/-- C1 amended: on a non-simulation source, `processMessage` updates the
event and byte counters and pushes the raw message onto the bounded
ingestion queue of capacity 10,000 whenever the queue has free space;
when the queue is full the call blocks (waits for space) instead of
dropping the message, and no loss counter exists or is updated. -/
theorem processMessage_nonblocking_iff_space
    (st : SourceState) (data : List Nat) (now : Int) :
    (st.queue.length < ingestQueueCap →
      processMessage false st data now =
        some { eventCount := st.eventCount + 1
               dataSize := st.dataSize + (data.length : Int)
               processedCount := st.processedCount + 1
               queue := st.queue ++ [data]
               lastMessageTime := now }) ∧
    (ingestQueueCap ≤ st.queue.length →
      processMessage false st data now = none) := by
  constructor
  · intro hlt
    simp [processMessage, chanSend, hlt]
  · intro hge
    simp [processMessage, chanSend, Nat.not_lt.mpr hge]

/-- Witness for `processMessage_nonblocking_iff_space` on an empty queue. -/
theorem processMessage_nonblocking_iff_space_witness :
    (SourceState.mk 0 0 0 [] 0).queue.length < ingestQueueCap ∧
    processMessage false (SourceState.mk 0 0 0 [] 0) [2] 7 =
      some (SourceState.mk 1 1 1 [[2]] 7) := by
  refine ⟨by decide, ?_⟩
  have h := (processMessage_nonblocking_iff_space
    (SourceState.mk 0 0 0 [] 0) [2] 7).1 (by decide)
  simpa using h

end SyslogAnalyzer

namespace SyslogAnalyzer

/-! ### Theorems for claim C7 (simulation mode) -/

/-- Helper: a successful association-list lookup comes from a member. -/
theorem lookup_mem {l : List (String × List (List Nat))} {k : String}
    {v : List (List Nat)} (h : l.lookup k = some v) : (k, v) ∈ l := by
  induction l with
  | nil => simp [List.lookup] at h
  | cons p rest ih =>
    obtain ⟨a, b⟩ := p
    by_cases hk : k = a
    · subst hk
      simp [List.lookup] at h
      subst h
      exact List.mem_cons_self _ _
    · have hne : (k == a) = false := beq_eq_false_iff_ne.mpr hk
      simp [List.lookup, hne] at h
      exact List.mem_cons_of_mem _ (ih h)

/-- Helper: one simulation-mode scheduler step keeps the pipeline
quiescent and changes `eventCount` only on a message arrival. -/
theorem sysStep_sim (encode : List Nat → List Nat) (st : SysState) (e : SysEv)
    (hq : Quiescent st) :
    Quiescent (sysStep true encode st e) ∧
    (sysStep true encode st e).src.eventCount =
      st.src.eventCount + (match e with | .msg _ _ => 1 | _ => 0) := by
  obtain ⟨h1, h2, h3, h4, h5⟩ := hq
  cases e with
  | msg data now =>
    have hmsg : sysStep true encode st (.msg data now) =
        { st with src :=
          { st.src with
            lastMessageTime := now
            eventCount := st.src.eventCount + 1
            dataSize := st.src.dataSize + (data.length : Int) } } := by
      simp [sysStep, processMessage]
    rw [hmsg]
    exact ⟨⟨h1, h2, h3, h4, h5⟩, rfl⟩
  | workerRecv => exact ⟨⟨h1, h2, h3, h4, h5⟩, by simp [sysStep]⟩
  | workerTimeout => exact ⟨⟨h1, h2, h3, h4, h5⟩, by simp [sysStep]⟩
  | destRecv destID =>
    have hst : sysStep true encode st (.destRecv destID) = st := by
      rcases hl : st.destQueues.lookup destID with _ | q
      · simp [sysStep, hl]
      · have hq0 : q = [] := h3 (destID, q) (lookup_mem hl)
        subst hq0
        simp [sysStep, hl]
    rw [hst]
    exact ⟨⟨h1, h2, h3, h4, h5⟩, by simp⟩
  | destTimeout destID =>
    have hst : sysStep true encode st (.destTimeout destID) = st := by
      rcases hl : st.destBatches.lookup destID with _ | b
      · simp [sysStep, hl]
      · have hb0 : b = [] := h4 (destID, b) (lookup_mem hl)
        subst hb0
        simp [sysStep, hl]
    rw [hst]
    exact ⟨⟨h1, h2, h3, h4, h5⟩, by simp⟩

/-- C7: on a source in simulation mode, any schedule of message arrivals
and goroutine steps starting from a quiescent pipeline only updates the
metrics counters — every message bumps `eventCount`, nothing is ever
enqueued for processing, every destination queue stays empty, and no
batch is ever handed to a destination sink. -/
theorem simulationMode_no_forwarding (encode : List Nat → List Nat)
    (st0 : SysState) (evs : List SysEv) (h0 : Quiescent st0) :
    Quiescent (sysRun true encode st0 evs) ∧
    (sysRun true encode st0 evs).src.eventCount =
      st0.src.eventCount + (countMsgs evs : Int) ∧
    (sysRun true encode st0 evs).sinkOut = [] := by
  induction evs generalizing st0 with
  | nil =>
    refine ⟨h0, by simp [sysRun, countMsgs], ?_⟩
    exact h0.2.2.2.2
  | cons e rest ih =>
    have hstep := sysStep_sim encode st0 e h0
    have hrec := ih (sysStep true encode st0 e) hstep.1
    have hrun : sysRun true encode st0 (e :: rest) =
        sysRun true encode (sysStep true encode st0 e) rest := rfl
    refine ⟨hrun ▸ hrec.1, ?_, hrun ▸ hrec.2.2⟩
    rw [hrun, hrec.2.1, hstep.2]
    cases e
    case msg data now => simp [countMsgs]; ring
    all_goals simp [countMsgs]

/-- Witness for `simulationMode_no_forwarding`: a message arrival followed
by a worker step and a destination flush, starting from the empty
pipeline. -/
theorem simulationMode_no_forwarding_witness :
    Quiescent (SysState.mk (SourceState.mk 0 0 0 [] 0) [] [] [] []) ∧
    (sysRun true id (SysState.mk (SourceState.mk 0 0 0 [] 0) [] [] [] [])
      [SysEv.msg [3] 1, SysEv.workerRecv, SysEv.destTimeout "d"]).sinkOut = [] := by
  have hq : Quiescent (SysState.mk (SourceState.mk 0 0 0 [] 0) [] [] [] []) := by
    refine ⟨rfl, rfl, ?_, ?_, rfl⟩
    · intro p hp
      simp at hp
    · intro p hp
      simp at hp
  exact ⟨hq, (simulationMode_no_forwarding id _ _ hq).2.2⟩

end SyslogAnalyzer

namespace SyslogAnalyzer

/-! ### Theorems for claim C3 (HEC retry loop) -/

/-- Helper: whatever the retry loop returns was a successful attempt, all
attempts before it failed, and each failure added exactly two seconds of
delay. -/
theorem hecRetryLoop_some (outcomes : Nat → AttemptOutcome) :
    ∀ fuel i e j t, hecRetryLoop outcomes fuel i e = some (j, t) →
      i ≤ j ∧ j < i + fuel ∧ attemptSucceeds (outcomes j) = true ∧
      (∀ k, i ≤ k → k < j → attemptSucceeds (outcomes k) = false) ∧
      t = e + 2 * (j - i) := by
  intro fuel
  induction fuel with
  | zero =>
    intro i e j t h
    simp [hecRetryLoop] at h
  | succ n ih =>
    intro i e j t h
    cases hs : attemptSucceeds (outcomes i) with
    | true =>
      simp [hecRetryLoop, hs] at h
      obtain ⟨hj, ht⟩ := h
      subst hj
      subst ht
      refine ⟨le_refl _, by omega, hs, ?_, by omega⟩
      intro k hk1 hk2
      omega
    | false =>
      simp [hecRetryLoop, hs] at h
      obtain ⟨h1, h2, h3, h4, h5⟩ := ih (i + 1) (e + 2) j t h
      refine ⟨by omega, by omega, h3, ?_, by omega⟩
      intro k hk1 hk2
      rcases Nat.eq_or_lt_of_le hk1 with hk | hk
      · rw [← hk]
        exact hs
      · exact h4 k hk hk2

/-- Helper: while every attempt fails the loop keeps retrying — it has
produced no result and returned no error. -/
theorem hecRetryLoop_none (outcomes : Nat → AttemptOutcome) :
    ∀ fuel i e,
      (∀ k, i ≤ k → k < i + fuel → attemptSucceeds (outcomes k) = false) →
      hecRetryLoop outcomes fuel i e = none := by
  intro fuel
  induction fuel with
  | zero =>
    intro i e _
    simp [hecRetryLoop]
  | succ n ih =>
    intro i e hall
    have hi : attemptSucceeds (outcomes i) = false := hall i (le_refl _) (by omega)
    simp [hecRetryLoop, hi]
    exact ih (i + 1) (e + 2) (fun k hk1 hk2 => hall k (by omega) (by omega))

/-- Helper: a successful attempt within the observed fuel guarantees the
loop reports a delivery no later than that attempt. -/
theorem hecRetryLoop_finds (outcomes : Nat → AttemptOutcome) :
    ∀ fuel i e j, i ≤ j → j < i + fuel →
      attemptSucceeds (outcomes j) = true →
      ∃ j2 t, hecRetryLoop outcomes fuel i e = some (j2, t) ∧ j2 ≤ j := by
  intro fuel
  induction fuel with
  | zero =>
    intro i e j h1 h2 _
    omega
  | succ n ih =>
    intro i e j h1 h2 hj
    cases hs : attemptSucceeds (outcomes i) with
    | true =>
      refine ⟨i, e, ?_, h1⟩
      simp [hecRetryLoop, hs]
    | false =>
      have hij : i < j := by
        rcases Nat.eq_or_lt_of_le h1 with hk | hk
        · rw [← hk] at hj
          rw [hj] at hs
          exact absurd hs (by simp)
        · exact hk
      obtain ⟨j2, t, hloop, hle⟩ := ih (i + 1) (e + 2) j (by omega) (by omega) hj
      refine ⟨j2, t, ?_, hle⟩
      simp [hecRetryLoop, hs]
      exact hloop

/-- C3: for a batch handed to HEC delivery with a configured URL and API
key, every attempt ending in a network error or a non-{200,202} status is
followed by the next attempt two seconds later (the reported elapsed
retry delay is exactly 2 seconds per failed attempt), there is no retry
ceiling — as long as every attempt has failed the loop is still running
and the batch has not been dropped — and delivery is reported exactly
when an attempt returns HTTP 200 or 202. -/
theorem PostBatchToHEC_retries_until_2xx (cfg : HECConfig)
    (outcomes : Nat → AttemptOutcome) (fuel : Nat)
    (hURL : cfg.URL ≠ "") (hKey : cfg.APIKey ≠ "") :
    (∀ c, attemptSucceeds (.status c) = true ↔ (c = 200 ∨ c = 202)) ∧
    attemptSucceeds .netError = false ∧
    (∀ i t, PostBatchToHEC cfg outcomes fuel = some (.deliveredAt i t) →
      attemptSucceeds (outcomes i) = true ∧
      (∀ j, j < i → attemptSucceeds (outcomes j) = false) ∧
      t = 2 * i) ∧
    (∀ i, i < fuel → attemptSucceeds (outcomes i) = true →
      ∃ j t, PostBatchToHEC cfg outcomes fuel = some (.deliveredAt j t) ∧ j ≤ i) ∧
    ((∀ i, i < fuel → attemptSucceeds (outcomes i) = false) →
      PostBatchToHEC cfg outcomes fuel = none) := by
  have hguard : (cfg.URL = "" || cfg.APIKey = "") = false := by
    simp [hURL, hKey]
  refine ⟨?_, rfl, ?_, ?_, ?_⟩
  · intro c
    simp [attemptSucceeds]
  · intro i t h
    rw [PostBatchToHEC, hguard] at h
    simp only [Bool.false_eq_true, if_false, Option.map_eq_some'] at h
    obtain ⟨⟨j, u⟩, hloop, heq⟩ := h
    injection heq with h1 h2
    subst h1
    subst h2
    obtain ⟨_, _, h3, h4, h5⟩ := hecRetryLoop_some outcomes fuel 0 0 _ _ hloop
    exact ⟨h3, fun k hk => h4 k (Nat.zero_le _) hk, by omega⟩
  · intro i hi hsucc
    obtain ⟨j, t, hloop, hle⟩ :=
      hecRetryLoop_finds outcomes fuel 0 0 i (Nat.zero_le _) (by omega) hsucc
    refine ⟨j, t, ?_, hle⟩
    rw [PostBatchToHEC, hguard]
    simp [hloop]
  · intro hall
    rw [PostBatchToHEC, hguard]
    simp [hecRetryLoop_none outcomes fuel 0 0 (fun k _ hk => hall k (by omega))]

/-- Witness for `PostBatchToHEC_retries_until_2xx` on the spec scenario:
HTTP 500 twice, then HTTP 200 — delivery succeeds at the third attempt
after four seconds of accumulated retry delay, and the batch is never
dropped. -/
theorem PostBatchToHEC_retries_until_2xx_witness :
    (HECConfig.mk "http://hec.example/collect" "tok").URL ≠ "" ∧
    (HECConfig.mk "http://hec.example/collect" "tok").APIKey ≠ "" ∧
    attemptSucceeds (hecScenario 2) = true ∧
    (∃ j t, PostBatchToHEC (HECConfig.mk "http://hec.example/collect" "tok")
        hecScenario 9 = some (.deliveredAt j t) ∧ j ≤ 2) ∧
    PostBatchToHEC (HECConfig.mk "http://hec.example/collect" "tok")
        hecScenario 9 = some (.deliveredAt 2 4) := by
  refine ⟨by decide, by decide, by decide, ?_, by decide⟩
  exact (PostBatchToHEC_retries_until_2xx
    (HECConfig.mk "http://hec.example/collect" "tok") hecScenario 9
    (by decide) (by decide)).2.2.2.1 2 (by decide) (by decide)

end SyslogAnalyzer

namespace SyslogAnalyzer

/-! ### Theorems for claim C4 (storage rotation) -/

/-- C4 counterexample: with the default 50,000-event limit, a first batch
of 50,001 events is written entirely into the freshly opened file (the
rotation check runs only once per batch, before the batch is written), so
the file closed by the next batch contains 50,001 records, not exactly
50,000. -/
theorem storage_rotation_not_exact :
    (runBatches (newStorageHandler 0) [50001, 1]).closedCounts = [50001] ∧
    ¬ claimedExactRotation (runBatches (newStorageHandler 0) [50001, 1]) := by
  constructor
  · decide
  · intro h
    have h2 := h 50001 (by decide)
    exact absurd h2 (by decide)

/-- Helper: `ProcessBatch` preserves the configured limit and only ever
closes a file that already holds at least the effective maximum number of
events, because `shouldRotate` is checked before the batch is written. -/
theorem processBatch_closed_ge (s : StorageHandler) (b : Nat)
    (h : ∀ c ∈ s.closedCounts, effectiveMaxEvents s.maxEventsPerFile ≤ c) :
    (s.ProcessBatch b).maxEventsPerFile = s.maxEventsPerFile ∧
    ∀ c ∈ (s.ProcessBatch b).closedCounts,
      effectiveMaxEvents s.maxEventsPerFile ≤ c := by
  by_cases hb : b = 0
  · simp [StorageHandler.ProcessBatch, hb]
    exact h
  · by_cases hrot : s.shouldRotate
    · by_cases hfile : s.hasFile
      · have hcnt : effectiveMaxEvents s.maxEventsPerFile ≤ s.eventCount := by
          simpa [StorageHandler.shouldRotate] using hrot
        simp [StorageHandler.ProcessBatch, hb, hrot, StorageHandler.rotateFile,
          StorageHandler.openNewFile, hfile]
        intro c hc
        rcases hc with hc | hc
        · exact h c hc
        · rw [hc]
          exact hcnt
      · simp [StorageHandler.ProcessBatch, hb, hrot, StorageHandler.rotateFile,
          StorageHandler.openNewFile, hfile]
        exact h
    · by_cases hfile : s.hasFile
      · simp [StorageHandler.ProcessBatch, hb, hrot, hfile]
        exact h
      · simp [StorageHandler.ProcessBatch, hb, hrot, StorageHandler.openNewFile, hfile]
        exact h

/-- Helper: the invariant extends over any batch sequence. -/
theorem runBatches_closed_ge (batches : List Nat) :
    ∀ s : StorageHandler,
      (∀ c ∈ s.closedCounts, effectiveMaxEvents s.maxEventsPerFile ≤ c) →
      (runBatches s batches).maxEventsPerFile = s.maxEventsPerFile ∧
      ∀ c ∈ (runBatches s batches).closedCounts,
        effectiveMaxEvents s.maxEventsPerFile ≤ c := by
  induction batches with
  | nil =>
    intro s h
    exact ⟨rfl, h⟩
  | cons b rest ih =>
    intro s h
    have hstep := processBatch_closed_ge s b h
    have hrec := ih (s.ProcessBatch b) (hstep.1 ▸ hstep.2)
    have hrun : runBatches s (b :: rest) = runBatches (s.ProcessBatch b) rest := rfl
    rw [hrun]
    exact ⟨hrec.1.trans hstep.1, hstep.1 ▸ hrec.2⟩

/-- C4 amended: rotation is checked once per non-empty batch, before the
batch is written — when the current file already holds at least
`maxEventsPerFile` events (default 50,000) it is closed and a fresh
timestamp-named file opened, which then receives exactly the incoming
batch; consequently every closed file contains at least
`maxEventsPerFile` newline-delimited JSON records, but may contain more
(up to one batch beyond the limit), not exactly `maxEventsPerFile`. -/
theorem storageHandler_rotation_at_least (m : Nat) (batches : List Nat)
    (s : StorageHandler) (b : Nat) (hb : b ≠ 0) (hfile : s.hasFile = true)
    (hfull : effectiveMaxEvents s.maxEventsPerFile ≤ s.eventCount) :
    (∀ c ∈ (runBatches (newStorageHandler m) batches).closedCounts,
      effectiveMaxEvents m ≤ c) ∧
    (s.ProcessBatch b).closedCounts = s.closedCounts ++ [s.eventCount] ∧
    (s.ProcessBatch b).eventCount = b := by
  refine ⟨?_, ?_, ?_⟩
  · have h := runBatches_closed_ge batches (newStorageHandler m) (by
      intro c hc
      simp [newStorageHandler] at hc)
    simpa [newStorageHandler] using h.2
  · have hrot : s.shouldRotate = true := by
      simp [StorageHandler.shouldRotate, hfull]
    simp [StorageHandler.ProcessBatch, hb, hrot, StorageHandler.rotateFile,
      StorageHandler.openNewFile, hfile]
  · have hrot : s.shouldRotate = true := by
      simp [StorageHandler.shouldRotate, hfull]
    simp [StorageHandler.ProcessBatch, hb, hrot, StorageHandler.rotateFile,
      StorageHandler.openNewFile, hfile]

/-- Witness for `storageHandler_rotation_at_least`: limit 2, batches of 3
and 1 event, and a full open file of 5 events receiving a 4-event batch. -/
theorem storageHandler_rotation_at_least_witness :
    (4 : Nat) ≠ 0 ∧ (StorageHandler.mk true 5 [] 2).hasFile = true ∧
    effectiveMaxEvents (StorageHandler.mk true 5 [] 2).maxEventsPerFile ≤
      (StorageHandler.mk true 5 [] 2).eventCount ∧
    ((∀ c ∈ (runBatches (newStorageHandler 2) [3, 1]).closedCounts,
        effectiveMaxEvents 2 ≤ c) ∧
      ((StorageHandler.mk true 5 [] 2).ProcessBatch 4).closedCounts =
        (StorageHandler.mk true 5 [] 2).closedCounts ++
          [(StorageHandler.mk true 5 [] 2).eventCount] ∧
      ((StorageHandler.mk true 5 [] 2).ProcessBatch 4).eventCount = 4) := by
  refine ⟨by decide, by decide, by decide, ?_⟩
  exact storageHandler_rotation_at_least 2 [3, 1] (StorageHandler.mk true 5 [] 2) 4
    (by decide) (by decide) (by decide)

end SyslogAnalyzer

namespace SyslogAnalyzer

/-! ### Theorems for claim C9 (parse degradation) -/

/-- C9 counterexample: the single-space message is malformed (the JSON
decoder fails on an input without any token), yet `parseMessage` returns
`nil` for it — the trimmed string is empty — so the payload is discarded
rather than degraded to a raw-string event. -/
theorem parseMessage_discards_whitespace :
    parseMessage (fun _ => (none : Option Unit)) 0 "src" " " = none ∧
    ¬ claimedNeverDiscards := by
  have h1 : parseMessage (fun _ => (none : Option Unit)) 0 "src" " " = none := by
    rfl
  refine ⟨h1, ?_⟩
  intro h
  exact h (fun _ => none) 0 "src" " " rfl h1

/-- C9 amended: a raw message whose JSON parse fails is degraded to a
LogEvent carrying the whitespace-trimmed raw string, stamped with the
receive time, source name and payload size — unless the message is empty
or whitespace-only after trimming, in which case `parseMessage` returns
`nil` and the message is discarded. -/
theorem parseMessage_degrades_unless_blank {α : Type}
    (jsonParse : String → Option α) (now : Int) (sourceName data : String)
    (hfail : jsonParse data = none) :
    (goTrimSpace data ≠ "" →
      parseMessage jsonParse now sourceName data =
        some ⟨now, sourceName, (data.length : Int), Sum.inr (goTrimSpace data)⟩) ∧
    (goTrimSpace data = "" → parseMessage jsonParse now sourceName data = none) := by
  constructor
  · intro h
    simp [parseMessage, hfail, h]
  · intro h
    simp [parseMessage, hfail, h]

/-- Witness for `parseMessage_degrades_unless_blank` on a plain-text
message. -/
theorem parseMessage_degrades_unless_blank_witness :
    (fun _ => (none : Option Unit)) "plain text" = none ∧
    goTrimSpace "plain text" ≠ "" ∧
    parseMessage (fun _ => (none : Option Unit)) 7 "s1" "plain text" =
      some ⟨7, "s1", (("plain text").length : Int), Sum.inr (goTrimSpace "plain text")⟩ := by
  refine ⟨rfl, by decide, ?_⟩
  exact (parseMessage_degrades_unless_blank
    (fun _ => (none : Option Unit)) 7 "s1" "plain text" rfl).1 (by decide)

end SyslogAnalyzer

namespace SyslogAnalyzer

/-! ### Theorems for claim C6 (filter decision) -/

/-- Helper: `shouldInclude` returns true exactly when no rule of the
ordered list disqualifies the event. -/
theorem shouldInclude_iff (rm : String → String → Option Bool) (ev : LogEvent) :
    ∀ rules, shouldInclude rm rules ev = true ↔
      ∀ r ∈ rules, ¬ disqualifies rm ev r := by
  intro rules
  induction rules with
  | nil => simp [shouldInclude]
  | cons rule rest ih =>
    by_cases hd : disqualifies rm ev rule
    · have hfalse : shouldInclude rm (rule :: rest) ev = false := by
        rcases hd with ⟨ha, hm⟩ | ⟨ha, hm⟩
        · simp [shouldInclude, ha, hm]
        · simp [shouldInclude, ha, hm]
      constructor
      · intro h
        rw [hfalse] at h
        exact absurd h (by simp)
      · intro hall
        exact absurd hd (hall rule (List.mem_cons_self _ _))
    · have hstep : shouldInclude rm (rule :: rest) ev = shouldInclude rm rest ev := by
        by_cases ha : rule.Action = "exclude"
        · have hm : evaluateRule rm ev rule = false := by
            cases hmm : evaluateRule rm ev rule
            · rfl
            · exact absurd (Or.inl ⟨ha, hmm⟩) hd
          simp [shouldInclude, ha, hm]
        · by_cases hb : rule.Action = "include"
          · have hm : evaluateRule rm ev rule = true := by
              cases hmm : evaluateRule rm ev rule
              · exact absurd (Or.inr ⟨hb, hmm⟩) hd
              · rfl
            simp [shouldInclude, ha, hb, hm]
          · simp [shouldInclude, ha, hb]
      rw [hstep, ih]
      constructor
      · intro h r hr
        rcases List.mem_cons.mp hr with hr | hr
        · rw [hr]
          exact hd
        · exact h r hr
      · intro h r hr
        exact h r (List.mem_cons_of_mem _ hr)

/-- C6: an event survives the filter stage exactly when no rule of the
ordered rule list disqualifies it (a matching `exclude` rule or a
non-matching `include` rule disqualifies immediately); with zero rules
the whole batch passes unchanged; and on the spec scenario the rule
(message contains "ERROR", include) keeps exactly the "ERROR: disk full"
event out of the two events. -/
theorem filterEngine_decision (rm : String → String → Option Bool)
    (rules : List FilterRule) (ev : LogEvent) (events : List LogEvent) :
    (shouldInclude rm rules ev = true ↔ ∀ r ∈ rules, ¬ disqualifies rm ev r) ∧
    filterProcessBatch rm rules events = events.filter (shouldInclude rm rules) ∧
    filterProcessBatch rm [] events = events ∧
    filterProcessBatch rm [errorRule] [errEvent, infoEvent] = [errEvent] := by
  refine ⟨shouldInclude_iff rm ev rules, ?_, rfl, ?_⟩
  · cases rules with
    | nil =>
      have : events.filter (shouldInclude rm []) = events :=
        List.filter_eq_self.mpr (fun a _ => rfl)
      rw [this]
      rfl
    | cons r rs => simp [filterProcessBatch]
  · have he1 : shouldInclude rm [errorRule] errEvent = true := by
      simp [shouldInclude, errorRule, evaluateRule, errEvent, extractFieldValue]
      decide
    have he2 : shouldInclude rm [errorRule] infoEvent = false := by
      simp [shouldInclude, errorRule, evaluateRule, infoEvent, extractFieldValue]
      decide
    simp [filterProcessBatch, he1, he2]

/-- Witness for `filterEngine_decision`: the spec scenario evaluated at a
concrete regex oracle. -/
theorem filterEngine_decision_witness :
    filterProcessBatch (fun _ _ => none) [errorRule] [errEvent, infoEvent] =
      [errEvent] :=
  (filterEngine_decision (fun _ _ => none) [errorRule] errEvent
    [errEvent, infoEvent]).2.2.2

end SyslogAnalyzer

namespace SyslogAnalyzer

/-! ### Theorems for claims C5 and C8 (metrics ring buffer) -/

/-- Helper: modulus of an operand below `2 * C`. -/
theorem mod_two_cases (x C : Nat) (hC : 0 < C) (hx : x < 2 * C) :
    x % C = if x < C then x else x - C := by
  by_cases h : x < C
  · simp [h, Nat.mod_eq_of_lt]
  · push_neg at h
    rw [if_neg (by omega), Nat.mod_eq_sub_mod h, Nat.mod_eq_of_lt (by omega)]

/-- Helper: after one more write, the newest slot visited by the read
loop is the slot just written. -/
theorem slot_zero_arith (h C : Nat) (_hC : 0 < C) (hh : h < C) :
    ((h + 1) % C + C - 1) % C = h := by
  by_cases h2 : h + 1 < C
  · rw [Nat.mod_eq_of_lt h2, show h + 1 + C - 1 = h + C by omega,
      Nat.add_mod_right, Nat.mod_eq_of_lt hh]
  · have hh1 : h + 1 = C := by omega
    rw [hh1, Nat.mod_self, Nat.mod_eq_of_lt (by omega)]
    omega

/-- Helper: after one more write, the slot visited at iteration `j + 1`
is the slot the previous buffer's read loop visited at iteration `j`. -/
theorem slot_succ_arith (h C j : Nat) (hC : 0 < C) (hh : h < C)
    (hj : j + 1 < C) :
    ((h + 1) % C + C - 1 - (j + 1)) % C = (h + C - 1 - j) % C := by
  by_cases h2 : h + 1 < C
  · rw [Nat.mod_eq_of_lt h2]
    congr 1
    omega
  · have hh1 : h + 1 = C := by omega
    rw [hh1, Nat.mod_self,
      mod_two_cases (0 + C - 1 - (j + 1)) C hC (by omega),
      mod_two_cases (h + C - 1 - j) C hC (by omega),
      if_pos (by omega), if_neg (by omega)]
    omega

/-- Helper: the slots visited at iterations `0 < j + 1 < C` differ from
the slot most recently written. -/
theorem slot_succ_ne_head (h C j : Nat) (hC : 0 < C) (hh : h < C)
    (hj : j + 1 < C) :
    (h + C - 1 - j) % C ≠ h := by
  rw [mod_two_cases _ _ hC (by omega)]
  by_cases hcase : h + C - 1 - j < C
  · rw [if_pos hcase]
    omega
  · rw [if_neg hcase]
    omega

/-- Helper: full characterization of the ring buffer after any sequence
of `Add` calls on a fresh buffer of positive capacity `C`: the write
index and saturating count evolve as `length % C` and `min length C`,
and the slot visited at loop iteration `i` of `GetAverage` holds the
`i`-th newest point. -/
theorem addAll_char (C : Nat) (hC : 0 < C) (ps : List MetricDataPoint) :
    ((NewCircularBuffer C).addAll ps).size = C ∧
    ((NewCircularBuffer C).addAll ps).buffer.length = C ∧
    ((NewCircularBuffer C).addAll ps).head = ps.length % C ∧
    ((NewCircularBuffer C).addAll ps).count = min ps.length C ∧
    (∀ i, i < min ps.length C →
      ((NewCircularBuffer C).addAll ps).buffer.get?
          (((NewCircularBuffer C).addAll ps).slotIndex i) =
        ps.get? (ps.length - 1 - i)) := by
  induction ps using List.reverseRecOn with
  | nil =>
    refine ⟨rfl, ?_, ?_, ?_, ?_⟩
    · simp [CircularBuffer.addAll, NewCircularBuffer]
    · simp [CircularBuffer.addAll, NewCircularBuffer]
    · simp [CircularBuffer.addAll, NewCircularBuffer]
    · intro i hi
      simp at hi
  | append_singleton ps p ih =>
    obtain ⟨ihsize, ihlen, ihhead, ihcount, ihslot⟩ := ih
    have hfold : (NewCircularBuffer C).addAll (ps ++ [p]) =
        ((NewCircularBuffer C).addAll ps).Add p := by
      simp [CircularBuffer.addAll]
    set cb := (NewCircularBuffer C).addAll ps with hcb
    set n := ps.length with hn
    have hheadlt : cb.head < C := ihhead ▸ Nat.mod_lt _ hC
    have hsize2 : (cb.Add p).size = C := ihsize
    have hlen2 : (cb.Add p).buffer.length = C := by
      show (cb.buffer.set cb.head p).length = C
      rw [List.length_set, ihlen]
    have hhead2 : (cb.Add p).head = (n + 1) % C := by
      show (cb.head + 1) % cb.size = (n + 1) % C
      rw [ihsize, ihhead, Nat.mod_add_mod]
    have hcount2 : (cb.Add p).count = min (n + 1) C := by
      show (if cb.count < cb.size then cb.count + 1 else cb.count) = min (n + 1) C
      rw [ihsize, ihcount]
      by_cases h : min n C < C
      · rw [if_pos h]
        omega
      · rw [if_neg h]
        omega
    rw [hfold]
    refine ⟨hsize2, hlen2, by rw [hhead2]; simp, by rw [hcount2]; simp, ?_⟩
    intro i hi
    simp only [List.length_append, List.length_singleton] at hi ⊢
    cases i with
    | zero =>
      have hidx : (cb.Add p).slotIndex 0 = cb.head := by
        unfold CircularBuffer.slotIndex
        rw [hhead2, hsize2, ihhead, ← Nat.mod_add_mod, Nat.sub_zero]
        exact slot_zero_arith (n % C) C hC (Nat.mod_lt _ hC)
      rw [hidx]
      show (cb.buffer.set cb.head p).get? cb.head = (ps ++ [p]).get? (n + 1 - 1 - 0)
      rw [List.get?_set_eq_of_lt p (by rw [ihlen]; exact hheadlt),
        show n + 1 - 1 - 0 = n by omega]
      exact (List.get?_concat_length ps p).symm
    | succ j =>
      have hjC : j + 1 < C := by omega
      have hjn : j + 1 ≤ n := by omega
      have hidx : (cb.Add p).slotIndex (j + 1) = cb.slotIndex j := by
        unfold CircularBuffer.slotIndex
        rw [hhead2, hsize2, ihhead, ihsize, ← Nat.mod_add_mod]
        exact slot_succ_arith (n % C) C j hC (Nat.mod_lt _ hC) hjC
      have hne : cb.slotIndex j ≠ cb.head := by
        unfold CircularBuffer.slotIndex
        rw [ihhead, ihsize]
        exact slot_succ_ne_head (n % C) C j hC (Nat.mod_lt _ hC) hjC
      rw [hidx]
      show (cb.buffer.set cb.head p).get? (cb.slotIndex j) =
        (ps ++ [p]).get? (n + 1 - 1 - (j + 1))
      rw [List.get?_set_ne p cb.buffer (fun hcontra => hne hcontra.symm)]
      have hget := ihslot j (by omega)
      rw [hget, show n + 1 - 1 - (j + 1) = n - 1 - j by omega]
      exact (List.get?_append (by omega)).symm

/-- Helper: a `filterMap` whose function is total on the list is a `map`. -/
theorem filterMap_eq_map_of_forall (l : List Nat)
    (f : Nat → Option MetricDataPoint) (g : Nat → MetricDataPoint)
    (h : ∀ i ∈ l, f i = some (g i)) : l.filterMap f = l.map g := by
  induction l with
  | nil => rfl
  | cons a l ih =>
    simp [List.filterMap_cons, h a (List.mem_cons_self _ _),
      ih (fun i hi => h i (List.mem_cons_of_mem _ hi))]

/-- Helper: FIFO characterization of the stored samples — after any add
sequence the read loop visits exactly the most recent `min length C`
points, newest first; every older point has been overwritten. -/
theorem storedSamples_eq (C : Nat) (hC : 0 < C) (ps : List MetricDataPoint) :
    ((NewCircularBuffer C).addAll ps).storedSamples =
      (ps.drop (ps.length - C)).reverse := by
  obtain ⟨hsize, hlenb, hhead, hcount, hslot⟩ := addAll_char C hC ps
  set cb := (NewCircularBuffer C).addAll ps with hcb
  set n := ps.length with hn
  have hmap : cb.storedSamples =
      (List.range cb.count).map (fun i => (ps.get? (n - 1 - i)).getD default) := by
    apply filterMap_eq_map_of_forall
    intro i hi
    rw [List.mem_range, hcount] at hi
    rw [hslot i hi]
    have hidx : n - 1 - i < n := by omega
    rw [List.get?_eq_get hidx]
    rfl
  rw [hmap, hcount]
  apply List.ext_getElem
  · simp
    omega
  · intro i h1 h2
    simp only [List.getElem_map, List.getElem_range]
    have hi : i < min n C := by simpa using h1
    have hidx : n - 1 - i < n := by omega
    rw [List.get?_eq_get hidx, Option.getD_some, List.get_eq_getElem,
      List.getElem_reverse, List.getElem_drop]
    congr 1
    show n - 1 - i = n - C + ((ps.drop (n - C)).length - 1 - i)
    simp only [List.length_drop]
    omega

/-- Helper: interleaving the timestamp test into a `filterMap` is the
same as filtering its results. -/
theorem filterMap_after_test (f : Nat → Option MetricDataPoint) (cutoff : Int) :
    ∀ l : List Nat,
      l.filterMap (fun i =>
        match f i with
        | some p => if cutoff < p.Timestamp then some p else none
        | none => none) =
      (l.filterMap f).filter (fun p => decide (cutoff < p.Timestamp)) := by
  intro l
  induction l with
  | nil => rfl
  | cons a l ih =>
    cases hf : f a with
    | none => simp only [List.filterMap_cons, hf, ih]
    | some p =>
      by_cases hp : cutoff < p.Timestamp
      · simp only [List.filterMap_cons, hf, ih, if_pos hp, List.filter_cons,
          decide_eq_true_eq]
      · simp only [List.filterMap_cons, hf, ih, if_neg hp, List.filter_cons,
          decide_eq_true_eq]

/-- Helper: the samples the `GetAverage` loop accumulates are exactly the
stored samples passing the `Timestamp.After(cutoff)` test. -/
theorem qualifying_eq_filter (cb : CircularBuffer) (cutoff : Int) :
    cb.qualifying cutoff =
      cb.storedSamples.filter (fun p => decide (cutoff < p.Timestamp)) :=
  filterMap_after_test (fun i => cb.buffer.get? (cb.slotIndex i)) cutoff
    (List.range cb.count)

/-- C8: `GetAverage(now, window)` is a function of precisely those stored
samples whose timestamp is strictly newer than `now - window`; when no
stored sample qualifies the call returns `(0, 0)`. -/
theorem GetAverage_only_recent (cb : CircularBuffer) (now window : Int) :
    cb.GetAverage now window =
      aggregateAverage (cb.storedSamples.filter
        (fun p => decide (now - window < p.Timestamp))) ∧
    ((∀ p ∈ cb.storedSamples, p.Timestamp ≤ now - window) →
      cb.GetAverage now window = (0, 0)) := by
  have h1 : cb.GetAverage now window =
      aggregateAverage (cb.storedSamples.filter
        (fun p => decide (now - window < p.Timestamp))) := by
    unfold CircularBuffer.GetAverage
    by_cases hc : cb.count = 0
    · rw [if_pos hc]
      have hempty : cb.storedSamples = [] := by
        unfold CircularBuffer.storedSamples
        rw [hc]
        rfl
      rw [hempty]
      simp [aggregateAverage]
    · rw [if_neg hc, qualifying_eq_filter]
  refine ⟨h1, ?_⟩
  intro hall
  rw [h1]
  have hnil : cb.storedSamples.filter
      (fun p => decide (now - window < p.Timestamp)) = [] := by
    apply List.filter_eq_nil.mpr
    intro p hp
    simp only [decide_eq_true_eq]
    exact not_lt.mpr (hall p hp)
  rw [hnil]
  simp [aggregateAverage]

/-- Witness for `GetAverage_only_recent`: one stored sample, too old for
the window — the call returns `(0, 0)`. -/
theorem GetAverage_only_recent_witness :
    (∀ p ∈ ((NewCircularBuffer 2).addAll [MetricDataPoint.mk 5 1 1]).storedSamples,
      p.Timestamp ≤ (100 : Int) - 10) ∧
    ((NewCircularBuffer 2).addAll [MetricDataPoint.mk 5 1 1]).GetAverage 100 10 =
      (0, 0) := by
  refine ⟨by decide, ?_⟩
  exact (GetAverage_only_recent
    ((NewCircularBuffer 2).addAll [MetricDataPoint.mk 5 1 1]) 100 10).2 (by decide)

/-- C5: after a sequence of `Add` calls longer than the capacity `C` on a
fresh ring buffer, with one sample per second (the sample added at step
`i` carries timestamp `t0 + i`, as the 1 Hz metrics ticker produces) and
the query instant at the last sample: the buffer holds at most `C`
samples; the stored samples are exactly the `C` most recent points
(oldest overwritten first, FIFO); and any sample contributing to a
`GetAverage` call over any window is strictly younger than `C` seconds. -/
theorem circularBuffer_fifo_age (C : Nat) (ps : List MetricDataPoint)
    (t0 now window : Int) (q : MetricDataPoint)
    (hC : 0 < C) (hlen : C < ps.length)
    (hts : ∀ i, i < ps.length →
      (ps.getD i default).Timestamp = t0 + (i : Int))
    (hnow : now = t0 + ((ps.length - 1 : Nat) : Int))
    (hq : q ∈ ((NewCircularBuffer C).addAll ps).qualifying (now - window)) :
    ((NewCircularBuffer C).addAll ps).count ≤ C ∧
    ((NewCircularBuffer C).addAll ps).storedSamples =
      (ps.drop (ps.length - C)).reverse ∧
    now - q.Timestamp < (C : Int) := by
  obtain ⟨hsize, hlenb, hhead, hcount, hslot⟩ := addAll_char C hC ps
  refine ⟨by rw [hcount]; omega, storedSamples_eq C hC ps, ?_⟩
  rw [qualifying_eq_filter] at hq
  have hq2 := List.mem_of_mem_filter hq
  rw [storedSamples_eq C hC ps, List.mem_reverse] at hq2
  obtain ⟨j, hj, hjq⟩ := List.getElem_of_mem hq2
  rw [List.getElem_drop] at hjq
  have hjlen : j < ps.length - (ps.length - C) := by
    simpa using hj
  have hidx : ps.length - C + j < ps.length := by omega
  have hts2 := hts (ps.length - C + j) hidx
  rw [List.getD_eq_getElem _ _ hidx] at hts2
  rw [hjq] at hts2
  rw [hnow, hts2]
  have hcast : ((ps.length - 1 : Nat) : Int) = (ps.length : Int) - 1 := by
    omega
  rw [hcast]
  push_cast
  omega

/-- Witness for `circularBuffer_fifo_age`: capacity 2, three 1 Hz samples
with timestamps 10, 11, 12, querying at 12 with a wide window — the
sample with timestamp 12 contributes and is younger than 2 seconds. -/
theorem circularBuffer_fifo_age_witness :
    ((NewCircularBuffer 2).addAll
      [MetricDataPoint.mk 10 1 1, MetricDataPoint.mk 11 2 2,
        MetricDataPoint.mk 12 3 3]).count ≤ 2 ∧
    ((NewCircularBuffer 2).addAll
      [MetricDataPoint.mk 10 1 1, MetricDataPoint.mk 11 2 2,
        MetricDataPoint.mk 12 3 3]).storedSamples =
      (([MetricDataPoint.mk 10 1 1, MetricDataPoint.mk 11 2 2,
        MetricDataPoint.mk 12 3 3] : List MetricDataPoint).drop
        (([MetricDataPoint.mk 10 1 1, MetricDataPoint.mk 11 2 2,
          MetricDataPoint.mk 12 3 3] : List MetricDataPoint).length - 2)).reverse ∧
    (12 : Int) - (MetricDataPoint.mk 12 3 3).Timestamp < ((2 : Nat) : Int) := by
  exact circularBuffer_fifo_age 2
    [MetricDataPoint.mk 10 1 1, MetricDataPoint.mk 11 2 2, MetricDataPoint.mk 12 3 3]
    10 12 100 (MetricDataPoint.mk 12 3 3)
    (by decide) (by decide) (by decide) (by decide) (by decide)

end SyslogAnalyzer
